import Mathlib

/-!
The generator gencomponent: field classification and the emitted reconciliation code.

A shallow embedding of `gencomponent/gencomponent.go`.

* Part 1 embeds the generator itself: the loop of `main` that walks the package
  scope and sorts struct fields into `Props` and `State`, and the two naming
  helpers `capitalize` / `uncapitalize`.
* Part 2 embeds the code that the template emits for one `Component`:
  the contracts, the setters, `applyProps` and `reconcile<Name>`, as
  state-passing functions over an explicit heap.

Go strings are byte sequences; a byte is a natural number.
-/

namespace Gencomponent

/-! ## Part 1: the generator -/

/-- A Go string: its bytes. -/
abbrev GoString := List Nat

/-- The bytes of an ASCII literal. -/
def ascii (s : String) : GoString := s.toList.map Char.toNat

/-- A Go identifier as go/types reports it (a field name, a scope name):
a byte string that is never empty. -/
structure Ident where
  first : Nat
  rest : GoString
deriving DecidableEq, Repr

/-- The identifier as a Go string. -/
def Ident.str (n : Ident) : GoString := n.first :: n.rest

/-- The identifier spelled by an ASCII literal (`_` for the empty literal). -/
def ident (s : String) : Ident :=
  match ascii s with
  | [] => ⟨95, []⟩
  | b :: bs => ⟨b, bs⟩

/-- The part of `types.Type` that the generator looks at. -/
inductive GoType where
  | basic (name : String)
  | named (pkgPath : String) (pkgName : String) (name : String)
  | pointer (elem : GoType)
  | slice (elem : GoType)
deriving DecidableEq, Repr

/-- The method `typ.String()`, that is `types.TypeString(typ, nil)`: named types
are qualified by the full package path. -/
def GoType.typeString : GoType → String
  | .basic n => n
  | .named path _ n => path ++ "." ++ n
  | .pointer e => "*" ++ e.typeString
  | .slice e => "[]" ++ e.typeString

/-- The template function `type`: named types are qualified by the package name. -/
def GoType.typeName : GoType → String
  | .basic n => n
  | .named _ pkg n => pkg ++ "." ++ n
  | .pointer e => "*" ++ e.typeName
  | .slice e => "[]" ++ e.typeName

/-- A struct field, `*types.Var`: its name and its type (`f.Type()`). -/
structure Var where
  Name : Ident
  typ : GoType
deriving DecidableEq, Repr

/-- The result of `obj.Type().Underlying()`: a struct with its fields in
declaration order, or anything else. -/
inductive Underlying where
  | struct (fields : List Var)
  | other
deriving DecidableEq, Repr

/-- The kinds of object a package scope holds. -/
inductive ObjKind where
  | TypeName
  | Var
  | Const
  | Func
deriving DecidableEq, Repr

/-- A package-level object, as `pkg.Scope().Lookup(name)` returns it. -/
structure Object where
  name : Ident
  kind : ObjKind
  underlying : Underlying
deriving DecidableEq, Repr

/-- The generator's record of one component (`type Component struct`). -/
structure Component where
  Name : Ident
  Props : List Var
  State : List Var
deriving DecidableEq, Repr

/-- The rune `utf8.RuneError`. -/
def RuneError : Nat := 0xFFFD

/-- A UTF-8 continuation byte within the given range. -/
def inRange (lo hi b : Nat) : Bool := decide (lo ≤ b) && decide (b ≤ hi)

/-- The function `utf8.DecodeRuneInString`, the rune only: the first rune of the
string, `RuneError` for the empty string and for an invalid encoding. -/
def DecodeRuneInString : GoString → Nat
  | [] => RuneError
  | b0 :: tl =>
    if b0 < 0x80 then b0
    else if inRange 0xC2 0xDF b0 then
      match tl with
      | b1 :: _ => if inRange 0x80 0xBF b1 then (b0 - 0xC0) * 64 + (b1 - 0x80) else RuneError
      | _ => RuneError
    else if inRange 0xE0 0xEF b0 then
      match tl with
      | b1 :: b2 :: _ =>
        let lo := if b0 = 0xE0 then 0xA0 else 0x80
        let hi := if b0 = 0xED then 0x9F else 0xBF
        if inRange lo hi b1 && inRange 0x80 0xBF b2 then
          (b0 - 0xE0) * 4096 + (b1 - 0x80) * 64 + (b2 - 0x80)
        else RuneError
      | _ => RuneError
    else if inRange 0xF0 0xF4 b0 then
      match tl with
      | b1 :: b2 :: b3 :: _ =>
        let lo := if b0 = 0xF0 then 0x90 else 0x80
        let hi := if b0 = 0xF4 then 0x8F else 0xBF
        if inRange lo hi b1 && inRange 0x80 0xBF b2 && inRange 0x80 0xBF b3 then
          (b0 - 0xF0) * 262144 + (b1 - 0x80) * 4096 + (b2 - 0x80) * 64 + (b3 - 0x80)
        else RuneError
      | _ => RuneError
    else RuneError

/-- The method `f.Exported()` of go/types: `unicode.IsUpper` of the first rune
of the name. The Unicode table `unicode.IsUpper` is the parameter `isUpper`. -/
def Exported (isUpper : Nat → Bool) (f : Var) : Bool :=
  isUpper (DecodeRuneInString f.Name.str)

/-- An instance of the table for concrete evaluation: it agrees with
`unicode.IsUpper` on every ASCII rune. -/
def asciiIsUpper (r : Nat) : Bool := decide (65 ≤ r) && decide (r ≤ 90)

/-- The type string that marks the framework's instance handle. -/
def instanceTypeString : String := "github.com/neelance/dom.Instance"

/-- The test `f.Type().String() == "github.com/neelance/dom.Instance"`. -/
def isInstance (f : Var) : Bool := f.typ.typeString == instanceTypeString

/-- One iteration of the field loop of `main` (lines 68-78). The call of
`types.TypeString` that follows (lines 80-83) only records import paths and does
not touch the component. -/
def fieldStep (isUpper : Nat → Bool) (comp : Component) (f : Var) : Component :=
  if isInstance f then comp
  else
    match Exported isUpper f with
    | true => { comp with Props := comp.Props ++ [f] }
    | false => { comp with State := comp.State ++ [f] }

/-- The field loop of `main`: `for i := 0; i < s.NumFields(); i++`. -/
def scanFields (isUpper : Nat → Bool) (fields : List Var) (comp : Component) : Component :=
  fields.foldl (fieldStep isUpper) comp

/-- One iteration of the scope loop of `main` (lines 62-86). -/
def scopeStep (isUpper : Nat → Bool) (components : List Component) (obj : Object) :
    List Component :=
  match obj.underlying with
  | .struct fields =>
    components ++ [scanFields isUpper fields { Name := obj.name, Props := [], State := [] }]
  | .other => components

/-- The component list that `main` builds from the objects of the package scope,
given in the order of `pkg.Scope().Names()`. -/
def main (isUpper : Nat → Bool) (scope : List Object) : List Component :=
  scope.foldl (scopeStep isUpper) []

/-- The result of `strings.ToUpper` on the one-byte string holding `b`: an ASCII
letter is upper-cased, another ASCII byte is kept, and a byte outside ASCII, which is not
valid UTF-8 by itself, is replaced by the encoding of U+FFFD. -/
def ToUpper1 (b : Nat) : GoString :=
  if 97 ≤ b ∧ b ≤ 122 then [b - 32]
  else if b < 128 then [b]
  else [0xEF, 0xBF, 0xBD]

/-- The result of `strings.ToLower` on the one-byte string holding `b`: an ASCII
letter is lower-cased, another ASCII byte is kept, and a byte outside ASCII is
replaced by the encoding of U+FFFD. -/
def ToLower1 (b : Nat) : GoString :=
  if 65 ≤ b ∧ b ≤ 90 then [b + 32]
  else if b < 128 then [b]
  else [0xEF, 0xBF, 0xBD]

/-- The function `capitalize`: `strings.ToUpper(s[:1]) + s[1:]`; `none` is the run-time
panic of `s[:1]` on the empty string. -/
def capitalize : GoString → Option GoString
  | [] => none
  | b :: tl => some (ToUpper1 b ++ tl)

/-- The function `uncapitalize`: `strings.ToLower(s[:1]) + s[1:]`; `none` is the run-time
panic of `s[:1]` on the empty string. -/
def uncapitalize : GoString → Option GoString
  | [] => none
  | b :: tl => some (ToLower1 b ++ tl)

/-- The template pipeline `.Name | c` on an identifier. -/
def c (n : Ident) : GoString := ToUpper1 n.first ++ n.rest

/-- The template pipeline `.Name | uc` on an identifier. -/
def uc (n : Ident) : GoString := ToLower1 n.first ++ n.rest

/-! ## Part 2: the code the template emits for one component

The emitted package declares, for a component `Name`, the types `<Name>Impl`
and `<name>Core`, the setters `Set<X>`, `applyProps` and `reconcile<Name>`.
They are embedded as functions on a `World`: the part of the Go heap that holds
the component's specs, its `<Name>Impl` objects and its `<name>Core` objects.
A pointer is `Option Ref` (`none` is the nil pointer); dereferencing nil,
and a failed type assertion, end the call with `Outcome.panic` and keep the
effects made so far. -/

/-- An address in one of the three heaps. -/
abbrev Ref := Nat

/-- Run-time values of fields. -/
inductive Value where
  | int (n : Int)
  | str (s : String)
  | other (typ : String) (id : Nat)
deriving DecidableEq, Repr

/-- The zero value of a Go type. -/
def zeroValue (t : GoType) : Value :=
  if t = .basic "int" then .int 0
  else if t = .basic "string" then .str ""
  else .other t.typeString 0

/-- Dynamic types of the pointers that interface values hold: a type of the
analysed package (`*<PkgName>.<name>`), a type declared by the generated package
(`*<name>`), or any other type. -/
inductive DynType where
  | pkg (name : GoString)
  | gen (name : GoString)
  | foreign (id : Nat)
deriving DecidableEq, Repr

/-- A value of an interface type (`dom.Spec`, `dom.Instance`,
`componentutil.Lifecycle`, `<Name>Accessors`): the nil interface, or a pointer
together with its dynamic type. -/
inductive Iface where
  | nil
  | ptr (t : DynType) (p : Option Ref)
deriving DecidableEq, Repr

/-- The type assertion `v.(t)` in its comma-ok form: the pointer when the dynamic
type of `v` is `t`. -/
def typeAssert (t : DynType) (v : Iface) : Option (Option Ref) :=
  match v with
  | .nil => none
  | .ptr t' p => if t' = t then some p else none

/-- The calls into the framework that the emitted code makes. -/
inductive Event where
  | ComponentWillMount (inst : Ref)
  | DoRender (core : Ref)
  | ComponentDidMount (inst : Ref)
  | Update (core : Ref)
deriving DecidableEq, Repr

/-- A spec object `<PkgName>.<Name>`: the `Instance` field and the fields that
carry the Prop values, by field name. -/
structure SpecObj where
  Instance : Iface
  fields : GoString → Value

/-- An object of the emitted type `<Name>Impl`: the embedded `<Name>Accessors`. -/
structure ImplObj where
  Accessors : Iface

/-- An object of the emitted type `<name>Core`: the `Lifecycle` field of the
embedded `componentutil.Core` and the backing storage, by field name. -/
structure CoreObj where
  Lifecycle : Iface
  slots : GoString → Value

/-- The heap of one component, the allocation counters and the log of framework
calls. -/
structure World where
  specs : Ref → SpecObj
  impls : Ref → ImplObj
  cores : Ref → CoreObj
  nextImpl : Ref
  nextCore : Ref
  trace : List Event

/-- How a call ends. -/
inductive Outcome where
  | ok
  | panic
deriving DecidableEq, Repr

/-- Replace the value stored under one key. -/
def setAt {κ α : Type} [DecidableEq κ] (m : κ → α) (k : κ) (x : α) : κ → α :=
  fun k' => if k' = k then x else m k'

/-- The assignment `s.Instance = v` on the spec at `s`. -/
def World.setInstance (w : World) (s : Ref) (v : Iface) : World :=
  { w with specs := setAt w.specs s { w.specs s with Instance := v } }

/-- The assignment `c.Lifecycle = v` on the core at `cr`. -/
def World.setLifecycle (w : World) (cr : Ref) (v : Iface) : World :=
  { w with cores := setAt w.cores cr { w.cores cr with Lifecycle := v } }

/-- The assignment `c.<slot> = v` on the core at `cr`. -/
def World.setSlot (w : World) (cr : Ref) (slot : GoString) (v : Value) : World :=
  { w with cores := setAt w.cores cr { w.cores cr with slots := setAt (w.cores cr).slots slot v } }

/-- Modelled from the spec: `componentutil.Core.DoRender` is not under src/; the
spec says apply-properties "unconditionally triggers a full render". The render
is recorded in the trace and changes nothing else. -/
def DoRender (cr : Ref) (w : World) : World :=
  { w with trace := w.trace ++ [Event.DoRender cr] }

/-- Modelled from the spec: `componentutil.Core.Update` is not under src/; the
spec says a setter "unconditionally requests a re-render". The request is
recorded in the trace and changes nothing else. -/
def Update (cr : Ref) (w : World) : World :=
  { w with trace := w.trace ++ [Event.Update cr] }

/-- Modelled from the spec: the before-mount hook of
`componentutil.EmptyLifecycle`, not under src/; its invocation is recorded in the
trace. -/
def ComponentWillMount (inst : Ref) (w : World) : World :=
  { w with trace := w.trace ++ [Event.ComponentWillMount inst] }

/-- Modelled from the spec: the after-mount hook of
`componentutil.EmptyLifecycle`, not under src/; its invocation is recorded in the
trace. -/
def ComponentDidMount (inst : Ref) (w : World) : World :=
  { w with trace := w.trace ++ [Event.ComponentDidMount inst] }

/-- The name of the backing field of `f` in the emitted Core: `_<<<.Name | uc>>>`. -/
def slot (f : Var) : GoString := 95 :: uc f.Name

/-- The name of the getter of `f`: `<<<.Name | c>>>`. -/
def getter (f : Var) : GoString := c f.Name

/-- The backing fields of the emitted Core struct, in the order of the template:
Props, then State. -/
def coreSlots (comp : Component) : List GoString :=
  comp.Props.map slot ++ comp.State.map slot

/-- The emitted code declares a method of this name on `*<name>Core`: the getter
of some Prop (lines 173-175) or of some State field (lines 183-185). -/
def declaresGetter (comp : Component) (name : GoString) : Bool :=
  (comp.Props ++ comp.State).any (fun f => getter f == name)

/-- The call `c.Update()` of an emitted setter (line 189). Go resolves the
selector to the method of least depth: a getter named `Update`, declared on
`*<name>Core` itself, hides the method promoted from the embedded
`componentutil.Core`, and the call then only reads a backing field. -/
def callUpdate (comp : Component) (cr : Ref) (w : World) : World :=
  if declaresGetter comp (ascii "Update") then w else Update cr w

/-- The call `c.DoRender()` of the emitted `applyProps` (line 195), resolved in
the same way: a getter named `DoRender` hides the promoted framework method,
and the call then only reads a backing field. -/
def callDoRender (comp : Component) (cr : Ref) (w : World) : World :=
  if declaresGetter comp (ascii "DoRender") then w else DoRender cr w

/-- A method of an emitted interface: name, parameters, result types. -/
structure Method where
  name : GoString
  params : List (GoString × String)
  results : List String
deriving DecidableEq, Repr

/-- The methods of the emitted interface `<Name>Props` (lines 149-152). -/
def PropsContract (comp : Component) : List Method :=
  comp.Props.map fun f => ⟨c f.Name, [], [f.typ.typeName]⟩

/-- The methods of the emitted interface `<Name>State` (lines 154-158). -/
def StateContract (comp : Component) : List Method :=
  comp.State.flatMap fun f =>
    [⟨c f.Name, [], [f.typ.typeName]⟩,
     ⟨ascii "Set" ++ c f.Name, [(uc f.Name, f.typ.typeName)], []⟩]

/-- A read-only accessor: no parameter, one result. -/
def Method.isGetter (m : Method) : Bool := m.params.isEmpty && m.results.length == 1

/-- A setter: one parameter, no result. -/
def Method.isSetter (m : Method) : Bool := m.params.length == 1 && m.results.isEmpty

/-- The dynamic type `*<PkgName>.<Name>` of the component's specs. -/
def specType (comp : Component) : DynType := .pkg comp.Name.str

/-- The dynamic type `*<Name>Impl`. -/
def implType (comp : Component) : DynType := .gen (comp.Name.str ++ ascii "Impl")

/-- The dynamic type `*<name>Core`. -/
def coreType (comp : Component) : DynType := .gen (uc comp.Name ++ ascii "Core")

/-- The storage of `&<name>Core{}`: every backing field holds the zero value of
its type. -/
def zeroSlots (comp : Component) : GoString → Value :=
  fun k =>
    match (comp.Props ++ comp.State).find? (fun f => slot f == k) with
    | some f => zeroValue f.typ
    | none => .other "" 0

/-- The emitted getter of field `f` on the core at `cr`: `return c._<uc name>`. -/
def Get (f : Var) (cr : Ref) (w : World) : Value :=
  (w.cores cr).slots (slot f)

/-- The emitted setter `Set<X>` on the core at `cr` (lines 187-190):
`c._x = x; c.Update()`. -/
def Set (comp : Component) (x : Var) (cr : Ref) (v : Value) (w : World) : World :=
  callUpdate comp cr (w.setSlot cr (slot x) v)

/-- The assignments of the emitted `applyProps` (the `range .Props` of lines
193-194): `c._<uc name> = spec.<c name>` for each Prop, in order. -/
def assignProps (props : List Var) (cr : Ref) (spec : Ref) (w : World) : World :=
  props.foldl (fun w f => w.setSlot cr (slot f) ((w.specs spec).fields (c f.Name))) w

/-- The emitted `applyProps` on the core at `cr` with the spec at `spec`
(lines 193-196): the assignments of the Props, then `c.DoRender()`. -/
def applyProps (comp : Component) (cr : Ref) (spec : Ref) (w : World) : World :=
  callDoRender comp cr (assignProps comp.Props cr spec w)

/-- The update path of the emitted reconcile function (lines 200-202), entered
with the pointer `old` that the type assertion on `oldSpec` returned. -/
def reconcileUpdate (comp : Component) (newSpec old : Option Ref) (w : World) :
    World × Outcome :=
  match old, newSpec with
  | some o, some n =>
    let w1 := w.setInstance n (w.specs o).Instance
    match typeAssert (implType comp) (w1.specs n).Instance with
    | some (some i) =>
      match typeAssert (coreType comp) (w1.impls i).Accessors with
      | some (some cr) => (applyProps comp cr n w1, .ok)
      | _ => (w1, .panic)
    | _ => (w1, .panic)
  | _, _ => (w, .panic)

/-- The mount path of the emitted reconcile function (lines 205-211). -/
def reconcileMount (comp : Component) (newSpec : Option Ref) (w : World) :
    World × Outcome :=
  let cr := w.nextCore
  let w1 : World :=
    { w with cores := setAt w.cores cr ⟨.nil, zeroSlots comp⟩, nextCore := cr + 1 }
  let i := w1.nextImpl
  let w2 : World :=
    { w1 with impls := setAt w1.impls i ⟨.ptr (coreType comp) (some cr)⟩, nextImpl := i + 1 }
  let w3 := w2.setLifecycle cr (.ptr (implType comp) (some i))
  match newSpec with
  | none => (w3, .panic)
  | some n =>
    let w4 := w3.setInstance n (.ptr (implType comp) (some i))
    let w5 := ComponentWillMount i w4
    let w6 := applyProps comp cr n w5
    (ComponentDidMount i w6, .ok)

/-- The emitted function `reconcile<Name>(newSpec, oldSpec)` (lines 198-212). -/
def reconcile (comp : Component) (newSpec : Option Ref) (oldSpec : Iface) (w : World) :
    World × Outcome :=
  match typeAssert (specType comp) oldSpec with
  | some old => reconcileUpdate comp newSpec old w
  | none => reconcileMount comp newSpec w

/-- The instance handle of the spec at `n` is a `<Name>Impl` whose Accessors
field is a `<name>Core`: both type assertions of the update path succeed on it. -/
def wellMounted (comp : Component) (w : World) (n : Ref) : Bool :=
  match typeAssert (implType comp) (w.specs n).Instance with
  | some (some i) =>
    match typeAssert (coreType comp) (w.impls i).Accessors with
    | some (some _) => true
    | _ => false
  | _ => false

/-- One call of the reconcile function. -/
structure Call where
  newSpec : Option Ref
  oldSpec : Iface

/-- A sequence of reconcile calls, run in order; it stops at the first panic. -/
def runCalls (comp : Component) : List Call → World → World × Outcome
  | [], w => (w, .ok)
  | call :: rest, w =>
    match reconcile comp call.newSpec call.oldSpec w with
    | (w', .ok) => runCalls comp rest w'
    | (w', .panic) => (w', .panic)

/-- The specs that were the newSpec of a call of the sequence. -/
def newSpecs : List Call → List Ref
  | [] => []
  | call :: rest =>
    match call.newSpec with
    | some n => n :: newSpecs rest
    | none => newSpecs rest

/-- The condition on one call of a chain: newSpec is a spec, and oldSpec is
absent, of another type, or a spec that was the newSpec of an earlier call. -/
def admissible (comp : Component) (earlier : List Ref) (call : Call) : Bool :=
  call.newSpec.isSome &&
    match call.oldSpec with
    | .nil => true
    | .ptr t p =>
      if t = specType comp then
        match p with
        | some o => decide (o ∈ earlier)
        | none => false
      else true

/-- The chain condition on a sequence of calls, given the specs reconciled
before it. -/
def chain (comp : Component) : List Ref → List Call → Bool
  | _, [] => true
  | earlier, call :: rest =>
    admissible comp earlier call && chain comp (newSpecs [call] ++ earlier) rest

/-- The world before any call: no instance anywhere, zero-valued fields. -/
def emptyWorld : World :=
  { specs := fun _ => ⟨.nil, fun _ => .other "" 0⟩
    impls := fun _ => ⟨.nil⟩
    cores := fun _ => ⟨.nil, fun _ => .other "" 0⟩
    nextImpl := 0
    nextCore := 0
    trace := [] }

/-- The field `Label string` of the scenario. -/
def Label : Var := ⟨ident "Label", .basic "string"⟩

/-- The field `count int` of the scenario. -/
def count : Var := ⟨ident "count", .basic "int"⟩

/-- The struct `Counter` of the scenario, as a package-level type. -/
def CounterObject : Object :=
  ⟨ident "Counter", .TypeName,
    .struct [⟨ident "Instance", .named "github.com/neelance/dom" "dom" "Instance"⟩, Label, count]⟩

/-- The component `Counter` of the scenario. -/
def Counter : Component := ⟨ident "Counter", [Label], [count]⟩

/-- A world holding the spec `spec{Label: v}` at address `s`. -/
def withLabel (w : World) (s : Ref) (v : String) : World :=
  { w with
    specs := setAt w.specs s ⟨(w.specs s).Instance, setAt (w.specs s).fields (ascii "Label") (.str v)⟩ }

/-- Two identifiers that agree after the first byte and whose first bytes are
equal, or the two cases of one ASCII letter, or both outside ASCII. -/
def sameButFirstCase (a b : Ident) : Prop :=
  a.rest = b.rest ∧
    (a.first = b.first ∨
      (65 ≤ a.first ∧ a.first ≤ 90 ∧ b.first = a.first + 32) ∨
      (65 ≤ b.first ∧ b.first ≤ 90 ∧ a.first = b.first + 32) ∨
      (128 ≤ a.first ∧ 128 ≤ b.first))

/-- Scenario, step 1: `reconcile(spec{Label:"x"}, absent)` with the spec at 0. -/
def mounted : World := (reconcile Counter (some 0) .nil (withLabel emptyWorld 0 "x")).1

/-- Scenario, step 2: the setter of `count` is invoked with 5; then the spec
`spec{Label:"y"}` is built at address 1. -/
def counted : World := withLabel (Set Counter count 0 (.int 5) mounted) 1 "y"

/-- The struct `Canvas { DoRender bool }` as a package-level type. -/
def CanvasObject : Object :=
  ⟨ident "Canvas", .TypeName, .struct [⟨ident "DoRender", .basic "bool"⟩]⟩

/-- The component `Canvas`: its only field is the Prop `DoRender`. -/
def Canvas : Component := ⟨ident "Canvas", [⟨ident "DoRender", .basic "bool"⟩], []⟩

/-- The struct `Poller { update int }` as a package-level type. -/
def PollerObject : Object :=
  ⟨ident "Poller", .TypeName, .struct [⟨ident "update", .basic "int"⟩]⟩

/-- The component `Poller`: its only field is the State field `update`. -/
def Poller : Component := ⟨ident "Poller", [], [⟨ident "update", .basic "int"⟩]⟩

/-- A chain of four calls: mount the spec at 0, update the spec at 1 against it,
mount the spec at 2 against a spec of another type, update the spec at 0
against the spec at 1. -/
def sampleChain : List Call :=
  [⟨some 0, .nil⟩,
   ⟨some 1, .ptr (specType Counter) (some 0)⟩,
   ⟨some 2, .ptr (.pkg (ascii "Other")) (some 7)⟩,
   ⟨some 0, .ptr (specType Counter) (some 1)⟩]

/-- The struct `struct { Label string; label string }` as a package-level type. -/
def TwoLabels : Object :=
  ⟨ident "T", .TypeName, .struct [⟨ident "Label", .basic "string"⟩, ⟨ident "label", .basic "string"⟩]⟩

/-- A package-level variable `var Default Counter`. -/
def DefaultVar : Object := ⟨ident "Default", .Var, CounterObject.underlying⟩

/-! ## Theorems on the generator -/

section Generator

variable (isUpper : Nat → Bool)

theorem scanFields_eq (fields : List Var) (comp : Component) :
    scanFields isUpper fields comp =
      ⟨comp.Name,
        comp.Props ++ fields.filter (fun f => !isInstance f && Exported isUpper f),
        comp.State ++ fields.filter (fun f => !isInstance f && !Exported isUpper f)⟩ := by
  induction fields generalizing comp with
  | nil => simp [scanFields]
  | cons f fs ih =>
    have hstep : scanFields isUpper (f :: fs) comp
        = scanFields isUpper fs (fieldStep isUpper comp f) := rfl
    rw [hstep, ih]
    unfold fieldStep
    cases hi : isInstance f <;> cases he : Exported isUpper f <;> simp [hi, he]

theorem main_append (scope : List Object) (acc : List Component) :
    scope.foldl (scopeStep isUpper) acc =
      acc ++ scope.filterMap (fun obj =>
        match obj.underlying with
        | .struct fields => some (scanFields isUpper fields ⟨obj.name, [], []⟩)
        | .other => none) := by
  induction scope generalizing acc with
  | nil => simp
  | cons obj rest ih =>
    rw [List.foldl_cons, ih]
    cases hu : obj.underlying <;> simp [scopeStep, List.filterMap_cons, hu]

theorem main_eq (scope : List Object) :
    main isUpper scope =
      scope.filterMap (fun obj =>
        match obj.underlying with
        | .struct fields => some (scanFields isUpper fields ⟨obj.name, [], []⟩)
        | .other => none) := by
  simp [main, main_append]

theorem filter_split_perm (fields : List Var) :
    (fields.filter (fun f => !isInstance f && Exported isUpper f) ++
      fields.filter (fun f => !isInstance f && !Exported isUpper f)).Perm
      (fields.filter (fun f => !isInstance f)) := by
  induction fields with
  | nil => simp
  | cons f fs ih =>
    cases hi : isInstance f <;> cases he : Exported isUpper f <;>
      simp [List.filter_cons, hi, he]
    · exact List.perm_middle.trans (List.Perm.cons f ih)
    · exact ih
    · exact ih
    · exact ih

end Generator

theorem ToUpper1_eq_iff (a b : Nat) (r s : GoString) :
    ToUpper1 a ++ r = ToUpper1 b ++ s ↔
      r = s ∧ (a = b ∨ (65 ≤ a ∧ a ≤ 90 ∧ b = a + 32) ∨ (65 ≤ b ∧ b ≤ 90 ∧ a = b + 32) ∨
        (128 ≤ a ∧ 128 ≤ b)) := by
  unfold ToUpper1
  by_cases hrs : r = s
  · subst hrs
    split_ifs <;> simp <;> omega
  · split_ifs <;> simp [hrs] <;> omega

theorem ToLower1_eq_iff (a b : Nat) (r s : GoString) :
    ToLower1 a ++ r = ToLower1 b ++ s ↔
      r = s ∧ (a = b ∨ (65 ≤ a ∧ a ≤ 90 ∧ b = a + 32) ∨ (65 ≤ b ∧ b ≤ 90 ∧ a = b + 32) ∨
        (128 ≤ a ∧ 128 ≤ b)) := by
  unfold ToLower1
  by_cases hrs : r = s
  · subst hrs
    split_ifs <;> simp <;> omega
  · split_ifs <;> simp [hrs] <;> omega

theorem getter_eq_iff (f g : Var) : getter f = getter g ↔ sameButFirstCase f.Name g.Name := by
  unfold getter c sameButFirstCase
  exact ToUpper1_eq_iff _ _ _ _

theorem slot_eq_iff (f g : Var) : slot f = slot g ↔ sameButFirstCase f.Name g.Name := by
  unfold slot uc sameButFirstCase
  rw [List.cons_inj_right]
  exact ToLower1_eq_iff _ _ _ _

/-- C1. For every struct that `main` scans (an object of the scope whose
underlying type is a struct), with its fields in declaration order: a field of
the instance-handle type is in neither Props nor State; any other field is in
Props exactly when it is exported (its first rune is upper case) and in State
exactly when it is not; Props and State are the exported and the unexported
non-handle fields in declaration order, so Props ++ State is a permutation of
the non-handle fields. -/
theorem field_classification (isUpper : Nat → Bool) :
    (∀ scope : List Object,
      main isUpper scope =
        scope.filterMap (fun obj =>
          match obj.underlying with
          | .struct fields => some (scanFields isUpper fields ⟨obj.name, [], []⟩)
          | .other => none)) ∧
    (∀ (name : Ident) (fields : List Var),
      (scanFields isUpper fields ⟨name, [], []⟩).Name = name ∧
      (∀ f, isInstance f = true →
        f ∉ (scanFields isUpper fields ⟨name, [], []⟩).Props ∧
        f ∉ (scanFields isUpper fields ⟨name, [], []⟩).State) ∧
      (∀ f ∈ fields, isInstance f = false →
        (f ∈ (scanFields isUpper fields ⟨name, [], []⟩).Props ↔
          isUpper (DecodeRuneInString f.Name.str) = true) ∧
        (f ∈ (scanFields isUpper fields ⟨name, [], []⟩).State ↔
          isUpper (DecodeRuneInString f.Name.str) = false)) ∧
      (scanFields isUpper fields ⟨name, [], []⟩).Props =
        fields.filter (fun f => !isInstance f && Exported isUpper f) ∧
      (scanFields isUpper fields ⟨name, [], []⟩).State =
        fields.filter (fun f => !isInstance f && !Exported isUpper f) ∧
      ((scanFields isUpper fields ⟨name, [], []⟩).Props ++
        (scanFields isUpper fields ⟨name, [], []⟩).State).Perm
        (fields.filter (fun f => !isInstance f))) := by
  refine ⟨main_eq isUpper, ?_⟩
  intro name fields
  rw [scanFields_eq]
  simp only [List.nil_append]
  refine ⟨trivial, ?_, ?_, trivial, trivial, filter_split_perm isUpper fields⟩
  · intro f hf
    simp [List.mem_filter, hf]
  · intro f hmem hf
    simp [List.mem_filter, hf, hmem, Exported]

/-- Witness of C1 on the struct `Counter { dom.Instance; Label string; count int }`:
the handle is dropped, `Label` is the only Prop and `count` the only State field. -/
theorem field_classification_witness :
    main asciiIsUpper [CounterObject] = [⟨ident "Counter", [Label], [count]⟩] ∧
    (Label ∈ (scanFields asciiIsUpper [Label, count] ⟨ident "Counter", [], []⟩).Props ↔
      asciiIsUpper (DecodeRuneInString Label.Name.str) = true) :=
  ⟨by decide,
   (((field_classification asciiIsUpper).2 (ident "Counter") [Label, count]).2.2.1
      Label (by decide) (by decide)).1⟩

/-- C2 (the code at the failing input). The scope of a package that declares
`type Counter struct {...}` and `var Default Counter` yields two components:
`main` builds one for the variable `Default` as well, although it is no type. -/
theorem main_component_for_variable :
    DefaultVar.kind = ObjKind.Var ∧
    main asciiIsUpper [CounterObject, DefaultVar] =
      [⟨ident "Counter", [Label], [count]⟩, ⟨ident "Default", [Label], [count]⟩] := by
  decide

/-- C8. For a struct with N exported and M unexported fields, not counting the
fields of the instance-handle type, the emitted Props contract declares exactly
N methods, each a getter, and the emitted State contract declares exactly 2*M
methods: for each unexported field, in order, its getter followed by its
setter. -/
theorem accessor_counts (isUpper : Nat → Bool) (name : Ident) (fields : List Var) :
    (PropsContract (scanFields isUpper fields ⟨name, [], []⟩)).length =
      fields.countP (fun f => !isInstance f && Exported isUpper f) ∧
    (∀ m ∈ PropsContract (scanFields isUpper fields ⟨name, [], []⟩), m.isGetter = true) ∧
    (StateContract (scanFields isUpper fields ⟨name, [], []⟩)).length =
      2 * fields.countP (fun f => !isInstance f && !Exported isUpper f) ∧
    StateContract (scanFields isUpper fields ⟨name, [], []⟩) =
      (fields.filter (fun f => !isInstance f && !Exported isUpper f)).flatMap (fun f =>
        [⟨c f.Name, [], [f.typ.typeName]⟩,
         ⟨ascii "Set" ++ c f.Name, [(uc f.Name, f.typ.typeName)], []⟩]) ∧
    (∀ f : Var,
      Method.isGetter ⟨c f.Name, [], [f.typ.typeName]⟩ = true ∧
      Method.isSetter ⟨ascii "Set" ++ c f.Name, [(uc f.Name, f.typ.typeName)], []⟩ = true) := by
  rw [scanFields_eq]
  simp only [List.nil_append, PropsContract, StateContract]
  refine ⟨?_, ?_, ?_, trivial, ?_⟩
  · simp [List.countP_eq_length_filter]
  · intro m hm
    simp only [List.mem_map] at hm
    obtain ⟨f, _, rfl⟩ := hm
    rfl
  · rw [List.countP_eq_length_filter]
    generalize fields.filter (fun f => !isInstance f && !Exported isUpper f) = l
    induction l with
    | nil => rfl
    | cons f fs ih =>
      simp only [List.flatMap_cons, List.length_append, List.length_cons, ih]
      simp
      omega
  · intro f
    exact ⟨rfl, rfl⟩

/-- C9 (counterexample). The struct `{ Label string; label string }` has the
Prop `Label` and the State field `label`; the two fields are distinct, yet they
get the same backing-storage name and the same getter name. -/
theorem naming_collision :
    main asciiIsUpper [TwoLabels] =
      [⟨ident "T", [⟨ident "Label", .basic "string"⟩], [⟨ident "label", .basic "string"⟩]⟩] ∧
    (⟨ident "Label", .basic "string"⟩ : Var) ≠ ⟨ident "label", .basic "string"⟩ ∧
    slot ⟨ident "Label", .basic "string"⟩ = slot ⟨ident "label", .basic "string"⟩ ∧
    getter ⟨ident "Label", .basic "string"⟩ = getter ⟨ident "label", .basic "string"⟩ ∧
    slot ⟨ident "label", .basic "string"⟩ = ascii "_label" ∧
    getter ⟨ident "label", .basic "string"⟩ = ascii "Label" := by
  decide

/-- C9 (amended). The backing-storage name of a field is `_` followed by
`uncapitalize` of its name and its getter name is `capitalize` of its name; two
fields get the same backing-storage name exactly when they get the same getter
name, and exactly when their names agree after the first byte and the first
bytes are equal, the two cases of one ASCII letter, or both outside ASCII.
Fields whose names differ in any other way get distinct names. -/
theorem naming_injective_up_to_first_case (f g : Var) :
    uncapitalize f.Name.str = some (uc f.Name) ∧
    capitalize f.Name.str = some (getter f) ∧
    slot f = ascii "_" ++ uc f.Name ∧
    (slot f = slot g ↔ sameButFirstCase f.Name g.Name) ∧
    (getter f = getter g ↔ sameButFirstCase f.Name g.Name) ∧
    (¬ sameButFirstCase f.Name g.Name → slot f ≠ slot g ∧ getter f ≠ getter g) := by
  refine ⟨rfl, rfl, rfl, slot_eq_iff f g, getter_eq_iff f g, ?_⟩
  intro h
  exact ⟨fun e => h ((slot_eq_iff f g).1 e), fun e => h ((getter_eq_iff f g).1 e)⟩

/-- Witness of the amended C9: `Label` and `count` differ after the first byte,
so their backing-storage names and their getter names differ. -/
theorem naming_injective_up_to_first_case_witness :
    ¬ sameButFirstCase Label.Name count.Name ∧ slot Label ≠ slot count ∧
      getter Label ≠ getter count :=
  ⟨by unfold sameButFirstCase; decide,
   (naming_injective_up_to_first_case Label count).2.2.2.2.2
     (by unfold sameButFirstCase; decide)⟩

/-! ## Theorems on the emitted code -/

@[simp]
theorem setAt_same {κ α : Type} [DecidableEq κ] (m : κ → α) (k : κ) (x : α) :
    setAt m k x k = x := by
  simp [setAt]

theorem setAt_other {κ α : Type} [DecidableEq κ] (m : κ → α) (k k' : κ) (x : α)
    (h : k' ≠ k) : setAt m k x k' = m k' := by
  simp [setAt, h]

theorem typeAssert_self (t : DynType) (p : Option Ref) :
    typeAssert t (.ptr t p) = some p := by
  simp [typeAssert]

theorem typeAssert_eq_some (t : DynType) (v : Iface) (p : Option Ref) :
    typeAssert t v = some p ↔ v = .ptr t p := by
  cases v with
  | nil => simp [typeAssert]
  | ptr t' q =>
    by_cases h : t' = t
    · subst h; simp [typeAssert]
    · simp [typeAssert, h]

theorem typeAssert_eq_none (t : DynType) (v : Iface) :
    typeAssert t v = none ↔ ∀ p, v ≠ .ptr t p := by
  cases v with
  | nil => simp [typeAssert]
  | ptr t' q =>
    by_cases h : t' = t
    · subst h; simp [typeAssert]
    · simp [typeAssert, h]

theorem assignProps_specs (props : List Var) (cr spec : Ref) (w : World) :
    (assignProps props cr spec w).specs = w.specs := by
  induction props generalizing w with
  | nil => rfl
  | cons f fs ih =>
    have h : assignProps (f :: fs) cr spec w =
        assignProps fs cr spec (w.setSlot cr (slot f) ((w.specs spec).fields (c f.Name))) := rfl
    rw [h, ih]
    rfl

theorem assignProps_frame (props : List Var) (cr spec : Ref) (w : World) :
    (assignProps props cr spec w).impls = w.impls ∧
    (assignProps props cr spec w).nextImpl = w.nextImpl ∧
    (assignProps props cr spec w).nextCore = w.nextCore ∧
    (assignProps props cr spec w).trace = w.trace ∧
    (∀ cr', ((assignProps props cr spec w).cores cr').Lifecycle = (w.cores cr').Lifecycle) ∧
    (∀ cr', cr' ≠ cr → (assignProps props cr spec w).cores cr' = w.cores cr') := by
  induction props generalizing w with
  | nil => simp [assignProps]
  | cons f fs ih =>
    have h : assignProps (f :: fs) cr spec w =
        assignProps fs cr spec (w.setSlot cr (slot f) ((w.specs spec).fields (c f.Name))) := rfl
    rw [h]
    obtain ⟨h1, h2, h3, h4, h5, h6⟩ :=
      ih (w.setSlot cr (slot f) ((w.specs spec).fields (c f.Name)))
    refine ⟨h1, h2, h3, h4, ?_, ?_⟩
    · intro cr'
      rw [h5]
      by_cases e : cr' = cr
      · subst e; simp [World.setSlot]
      · simp [World.setSlot, setAt_other _ _ _ _ e]
    · intro cr' e
      rw [h6 cr' e]
      simp [World.setSlot, setAt_other _ _ _ _ e]

theorem assignProps_other_slot (props : List Var) (cr spec : Ref) (w : World) (cr' : Ref)
    (k : GoString) (hk : k ∉ props.map slot) :
    ((assignProps props cr spec w).cores cr').slots k = (w.cores cr').slots k := by
  induction props generalizing w with
  | nil => rfl
  | cons f fs ih =>
    have h : assignProps (f :: fs) cr spec w =
        assignProps fs cr spec (w.setSlot cr (slot f) ((w.specs spec).fields (c f.Name))) := rfl
    simp only [List.map_cons, List.mem_cons, not_or] at hk
    rw [h, ih _ hk.2]
    by_cases e : cr' = cr
    · subst e; simp [World.setSlot, setAt_other _ _ _ _ hk.1]
    · simp [World.setSlot, setAt_other _ _ _ _ e]

theorem assignProps_prop_slot (props : List Var) (cr spec : Ref) (w : World)
    (hnd : (props.map slot).Nodup) (f : Var) (hf : f ∈ props) :
    ((assignProps props cr spec w).cores cr).slots (slot f) =
      (w.specs spec).fields (c f.Name) := by
  induction props generalizing w with
  | nil => simp at hf
  | cons g gs ih =>
    have h : assignProps (g :: gs) cr spec w =
        assignProps gs cr spec (w.setSlot cr (slot g) ((w.specs spec).fields (c g.Name))) := rfl
    simp only [List.map_cons, List.nodup_cons] at hnd
    rw [h]
    rcases List.mem_cons.1 hf with e | hmem
    · subst e
      rw [assignProps_other_slot _ _ _ _ _ _ hnd.1]
      simp [World.setSlot]
    · rw [ih _ hnd.2 hmem]
      rfl

theorem reconcile_same_type (comp : Component) (newSpec old : Option Ref) (w : World) :
    reconcile comp newSpec (.ptr (specType comp) old) w = reconcileUpdate comp newSpec old w := by
  simp [reconcile, typeAssert_self]

theorem reconcile_other_type (comp : Component) (newSpec : Option Ref) (oldSpec : Iface)
    (w : World) (h : ∀ p, oldSpec ≠ .ptr (specType comp) p) :
    reconcile comp newSpec oldSpec w = reconcileMount comp newSpec w := by
  simp [reconcile, (typeAssert_eq_none _ _).2 h]

theorem reconcileUpdate_eq (comp : Component) (n o : Ref) (w : World) :
    reconcileUpdate comp (some n) (some o) w =
      match typeAssert (implType comp) (w.specs o).Instance with
      | some (some i) =>
        match typeAssert (coreType comp) (w.impls i).Accessors with
        | some (some cr) => (applyProps comp cr n (w.setInstance n (w.specs o).Instance), .ok)
        | _ => (w.setInstance n (w.specs o).Instance, .panic)
      | _ => (w.setInstance n (w.specs o).Instance, .panic) := by
  simp [reconcileUpdate, World.setInstance]

theorem reconcileUpdate_wellMounted (comp : Component) (n o : Ref) (w : World)
    (h : wellMounted comp w o = true) :
    ∃ i cr, (w.specs o).Instance = .ptr (implType comp) (some i) ∧
      (w.impls i).Accessors = .ptr (coreType comp) (some cr) ∧
      reconcileUpdate comp (some n) (some o) w =
        (applyProps comp cr n (w.setInstance n (w.specs o).Instance), .ok) := by
  rw [reconcileUpdate_eq]
  unfold wellMounted at h
  split at h
  · rename_i i hi
    split at h
    · rename_i cr hcr
      exact ⟨i, cr, (typeAssert_eq_some _ _ _).1 hi, (typeAssert_eq_some _ _ _).1 hcr,
        by simp [hi, hcr]⟩
    · simp at h
  · simp at h

theorem reconcileUpdate_not_wellMounted (comp : Component) (n o : Ref) (w : World)
    (h : wellMounted comp w o = false) :
    reconcileUpdate comp (some n) (some o) w =
      (w.setInstance n (w.specs o).Instance, .panic) := by
  rw [reconcileUpdate_eq]
  unfold wellMounted at h
  split at h
  · split at h
    · simp at h
    · rfl
  · rfl

theorem callDoRender_frame (comp : Component) (cr : Ref) (w : World) :
    (callDoRender comp cr w).specs = w.specs ∧
    (callDoRender comp cr w).impls = w.impls ∧
    (callDoRender comp cr w).cores = w.cores ∧
    (callDoRender comp cr w).nextImpl = w.nextImpl ∧
    (callDoRender comp cr w).nextCore = w.nextCore ∧
    (callDoRender comp cr w).trace =
      w.trace ++ (if declaresGetter comp (ascii "DoRender") then [] else [Event.DoRender cr]) := by
  unfold callDoRender
  split <;> simp [DoRender]

theorem callUpdate_frame (comp : Component) (cr : Ref) (w : World) :
    (callUpdate comp cr w).specs = w.specs ∧
    (callUpdate comp cr w).impls = w.impls ∧
    (callUpdate comp cr w).cores = w.cores ∧
    (callUpdate comp cr w).nextImpl = w.nextImpl ∧
    (callUpdate comp cr w).nextCore = w.nextCore ∧
    (callUpdate comp cr w).trace =
      w.trace ++ (if declaresGetter comp (ascii "Update") then [] else [Event.Update cr]) := by
  unfold callUpdate
  split <;> simp [Update]

theorem applyProps_frame_all (comp : Component) (cr spec : Ref) (w : World) :
    (applyProps comp cr spec w).specs = w.specs ∧
    (applyProps comp cr spec w).impls = w.impls ∧
    (applyProps comp cr spec w).nextImpl = w.nextImpl ∧
    (applyProps comp cr spec w).nextCore = w.nextCore ∧
    (applyProps comp cr spec w).trace =
      w.trace ++ (if declaresGetter comp (ascii "DoRender") then [] else [Event.DoRender cr]) ∧
    (∀ cr', ((applyProps comp cr spec w).cores cr').Lifecycle = (w.cores cr').Lifecycle) ∧
    (∀ cr' k, k ∉ comp.Props.map slot →
      ((applyProps comp cr spec w).cores cr').slots k = (w.cores cr').slots k) := by
  obtain ⟨h1, h2, h3, h4, h5, _⟩ := assignProps_frame comp.Props cr spec w
  obtain ⟨d1, d2, d3, d4, d5, d6⟩ :=
    callDoRender_frame comp cr (assignProps comp.Props cr spec w)
  unfold applyProps
  refine ⟨?_, ?_, ?_, ?_, ?_, ?_, ?_⟩
  · rw [d1]; exact assignProps_specs _ _ _ _
  · rw [d2, h1]
  · rw [d4, h2]
  · rw [d5, h3]
  · rw [d6, h4]
  · intro cr'
    rw [d3]; exact h5 cr'
  · intro cr' k hk
    rw [d3]; exact assignProps_other_slot _ _ _ _ _ _ hk

theorem state_slot_not_prop (comp : Component) (hnd : (coreSlots comp).Nodup) (g : Var)
    (hg : g ∈ comp.State) : slot g ∉ comp.Props.map slot := by
  intro hmem
  unfold coreSlots at hnd
  exact (List.nodup_append.1 hnd).2.2 hmem (List.mem_map_of_mem slot hg)

theorem slot_ne_of_nodup (comp : Component) (hnd : (coreSlots comp).Nodup) (f g : Var)
    (hf : f ∈ comp.Props ++ comp.State) (hg : g ∈ comp.Props ++ comp.State) (hne : g ≠ f) :
    slot g ≠ slot f := by
  intro e
  have hnd' : ((comp.Props ++ comp.State).map slot).Nodup := by
    simpa [coreSlots, List.map_append] using hnd
  exact hne (List.inj_on_of_nodup_map hnd' hg hf e)

theorem wellMounted_congr (comp : Component) (w w' : World) (m : Ref)
    (hs : (w'.specs m).Instance = (w.specs m).Instance) (hi : w'.impls = w.impls) :
    wellMounted comp w' m = wellMounted comp w m := by
  simp [wellMounted, hs, hi]

theorem reconcileUpdate_frame (comp : Component) (n o : Ref) (w : World) :
    (reconcileUpdate comp (some n) (some o) w).1.specs =
      setAt w.specs n ⟨(w.specs o).Instance, (w.specs n).fields⟩ ∧
    (reconcileUpdate comp (some n) (some o) w).1.impls = w.impls ∧
    (reconcileUpdate comp (some n) (some o) w).1.nextImpl = w.nextImpl ∧
    (reconcileUpdate comp (some n) (some o) w).1.nextCore = w.nextCore ∧
    (∀ cr', ((reconcileUpdate comp (some n) (some o) w).1.cores cr').Lifecycle =
      (w.cores cr').Lifecycle) ∧
    (∀ cr' k, k ∉ comp.Props.map slot →
      ((reconcileUpdate comp (some n) (some o) w).1.cores cr').slots k =
        (w.cores cr').slots k) := by
  cases h : wellMounted comp w o with
  | false =>
    rw [reconcileUpdate_not_wellMounted comp n o w h]
    simp [World.setInstance]
  | true =>
    obtain ⟨i, cr, _, _, he⟩ := reconcileUpdate_wellMounted comp n o w h
    rw [he]
    obtain ⟨h1, h2, h3, h4, _, h6, h7⟩ :=
      applyProps_frame_all comp cr n (w.setInstance n (w.specs o).Instance)
    refine ⟨?_, ?_, ?_, ?_, ?_, ?_⟩
    · rw [h1]; rfl
    · rw [h2]; rfl
    · rw [h3]; rfl
    · rw [h4]; rfl
    · intro cr'
      rw [h6]; rfl
    · intro cr' k hk
      rw [h7 cr' k hk]; rfl

/-- C3. When oldSpec is a spec of the component's own type, the emitted
reconcile function takes the update path whatever the Prop values are, and
leaves newSpec.Instance equal to the Instance of oldSpec; the Instance of oldSpec
stays what it was, no `<Name>Impl` and no `<name>Core` is allocated, and every
handle keeps the Core it had. -/
theorem update_keeps_instance (comp : Component) (n o : Ref) (w : World) :
    reconcile comp (some n) (.ptr (specType comp) (some o)) w =
      reconcileUpdate comp (some n) (some o) w ∧
    ((reconcile comp (some n) (.ptr (specType comp) (some o)) w).1.specs n).Instance =
      (w.specs o).Instance ∧
    ((reconcile comp (some n) (.ptr (specType comp) (some o)) w).1.specs o).Instance =
      (w.specs o).Instance ∧
    (reconcile comp (some n) (.ptr (specType comp) (some o)) w).1.impls = w.impls ∧
    (reconcile comp (some n) (.ptr (specType comp) (some o)) w).1.nextImpl = w.nextImpl ∧
    (reconcile comp (some n) (.ptr (specType comp) (some o)) w).1.nextCore = w.nextCore ∧
    (∀ cr, ((reconcile comp (some n) (.ptr (specType comp) (some o)) w).1.cores cr).Lifecycle =
      (w.cores cr).Lifecycle) := by
  rw [reconcile_same_type]
  obtain ⟨h1, h2, h3, h4, h5, _⟩ := reconcileUpdate_frame comp n o w
  refine ⟨rfl, ?_, ?_, h2, h3, h4, h5⟩
  · simp [h1]
  · rw [h1]
    by_cases e : o = n
    · subst e; simp
    · simp [setAt_other _ _ _ _ e]

theorem reconcileMount_shape (comp : Component) (n : Ref) (w : World) :
    ∃ w5 : World,
      reconcileMount comp (some n) w =
        (ComponentDidMount w.nextImpl (applyProps comp w.nextCore n w5), .ok) ∧
      w5.trace = w.trace ++ [Event.ComponentWillMount w.nextImpl] ∧
      w5.specs = setAt w.specs n ⟨.ptr (implType comp) (some w.nextImpl), (w.specs n).fields⟩ ∧
      w5.impls = setAt w.impls w.nextImpl ⟨.ptr (coreType comp) (some w.nextCore)⟩ ∧
      (w5.cores w.nextCore).Lifecycle = .ptr (implType comp) (some w.nextImpl) ∧
      (∀ cr', cr' ≠ w.nextCore → w5.cores cr' = w.cores cr') ∧
      w5.nextImpl = w.nextImpl + 1 ∧
      w5.nextCore = w.nextCore + 1 := by
  refine ⟨_, rfl, rfl, rfl, rfl, ?_, ?_, rfl, rfl⟩
  · simp [ComponentWillMount, World.setInstance, World.setLifecycle]
  · intro cr' e
    simp [ComponentWillMount, World.setInstance, World.setLifecycle, setAt_other _ _ _ _ e]

/-- C4 (counterexample). The struct `Canvas { DoRender bool }` has the Prop
`DoRender`, whose emitted getter `DoRender()` on the Core hides the framework
method; mounting a spec of `Canvas` calls the two hooks and renders nothing. -/
theorem mount_without_render :
    main asciiIsUpper [CanvasObject] = [Canvas] ∧
    (coreSlots Canvas).Nodup ∧
    (reconcile Canvas (some 0) .nil emptyWorld).2 = .ok ∧
    (reconcile Canvas (some 0) .nil emptyWorld).1.trace =
      [Event.ComponentWillMount 0, Event.ComponentDidMount 0] := by
  decide

/-- C4 (amended). When oldSpec is absent, or its dynamic type is not the
component's spec type, the emitted reconcile function returns normally and is,
in this order, ComponentWillMount once, one run of applyProps, ComponentDidMount
once, on a `<Name>Impl` and a `<name>Core` allocated by this call; the new
handle is stored in newSpec.Instance, holds the new Core, and is the Lifecycle
of that Core. When no field of the component has the getter name DoRender, the
run of applyProps is exactly one render and the framework calls are exactly
ComponentWillMount, DoRender, ComponentDidMount; when a field has that getter
name, applyProps renders nothing and the framework calls are exactly
ComponentWillMount, ComponentDidMount. -/
theorem mount_hook_order (comp : Component) (n : Ref) (oldSpec : Iface) (w : World)
    (h : oldSpec = .nil ∨ ∃ t p, oldSpec = .ptr t p ∧ t ≠ specType comp) :
    (reconcile comp (some n) oldSpec w).2 = .ok ∧
    (∃ w5 : World,
      reconcile comp (some n) oldSpec w =
        (ComponentDidMount w.nextImpl (applyProps comp w.nextCore n w5), .ok) ∧
      w5.trace = w.trace ++ [Event.ComponentWillMount w.nextImpl]) ∧
    (declaresGetter comp (ascii "DoRender") = false →
      (reconcile comp (some n) oldSpec w).1.trace =
        w.trace ++ [Event.ComponentWillMount w.nextImpl, Event.DoRender w.nextCore,
          Event.ComponentDidMount w.nextImpl]) ∧
    (declaresGetter comp (ascii "DoRender") = true →
      (reconcile comp (some n) oldSpec w).1.trace =
        w.trace ++ [Event.ComponentWillMount w.nextImpl,
          Event.ComponentDidMount w.nextImpl]) ∧
    ((reconcile comp (some n) oldSpec w).1.specs n).Instance =
      .ptr (implType comp) (some w.nextImpl) ∧
    ((reconcile comp (some n) oldSpec w).1.impls w.nextImpl).Accessors =
      .ptr (coreType comp) (some w.nextCore) ∧
    ((reconcile comp (some n) oldSpec w).1.cores w.nextCore).Lifecycle =
      .ptr (implType comp) (some w.nextImpl) ∧
    (reconcile comp (some n) oldSpec w).1.nextImpl = w.nextImpl + 1 ∧
    (reconcile comp (some n) oldSpec w).1.nextCore = w.nextCore + 1 := by
  have hne : ∀ p, oldSpec ≠ .ptr (specType comp) p := by
    intro p hp
    rcases h with h | ⟨t, q, h, ht⟩
    · rw [h] at hp; cases hp
    · rw [h] at hp; injection hp with h1 _; exact ht h1
  rw [reconcile_other_type comp (some n) oldSpec w hne]
  obtain ⟨w5, he, h1, h2, h3, h4, _, h6, h7⟩ := reconcileMount_shape comp n w
  obtain ⟨a1, a2, a3, a4, a5, a6, _⟩ := applyProps_frame_all comp w.nextCore n w5
  rw [he]
  refine ⟨rfl, ⟨w5, rfl, h1⟩, ?_, ?_, ?_, ?_, ?_, ?_, ?_⟩
  · intro hg
    simp [ComponentDidMount, a5, h1, hg]
  · intro hg
    simp [ComponentDidMount, a5, h1, hg]
  · show ((applyProps comp w.nextCore n w5).specs n).Instance = _
    rw [a1, h2]; simp
  · show ((applyProps comp w.nextCore n w5).impls w.nextImpl).Accessors = _
    rw [a2, h3]; simp
  · show ((applyProps comp w.nextCore n w5).cores w.nextCore).Lifecycle = _
    rw [a6, h4]
  · show (applyProps comp w.nextCore n w5).nextImpl = _
    rw [a3, h6]
  · show (applyProps comp w.nextCore n w5).nextCore = _
    rw [a4, h7]

/-- Witness of the amended C4 on the scenario: `Counter` has no getter named
DoRender, and mounting `spec{Label:"x"}` at address 0 in the empty world
produces the three calls on the handle 0 and the core 0. -/
theorem mount_hook_order_witness :
    ((Iface.nil = Iface.nil) ∨ ∃ t p, Iface.nil = Iface.ptr t p ∧ t ≠ specType Counter) ∧
    declaresGetter Counter (ascii "DoRender") = false ∧
    (reconcile Counter (some 0) .nil (withLabel emptyWorld 0 "x")).1.trace =
      [Event.ComponentWillMount 0, Event.DoRender 0, Event.ComponentDidMount 0] :=
  ⟨Or.inl rfl, by decide,
   (mount_hook_order Counter 0 .nil (withLabel emptyWorld 0 "x") (Or.inl rfl)).2.2.1
     (by decide)⟩

/-- C5 (counterexample). In the empty world the spec at 0 is a spec of the type
of `Counter` whose Instance was never set; reconciling the spec at 1 against it
takes the update path, panics at the type assertion, and applyProps does not
run: no render is produced. -/
theorem update_against_unmounted_spec :
    (reconcile Counter (some 1) (.ptr (specType Counter) (some 0)) emptyWorld).2 = .panic ∧
    (reconcile Counter (some 1) (.ptr (specType Counter) (some 0)) emptyWorld).1.trace = [] := by
  decide

/-- C5 (amended). A call of the emitted reconcile function whose oldSpec is a
spec of the component's own type never invokes ComponentWillMount or
ComponentDidMount: the framework calls it adds are none, or one DoRender.
When the Instance of oldSpec is a pointer to a `<Name>Impl` whose Accessors
field is a pointer to a `<name>Core`, the call returns normally and is exactly
one run of applyProps on that Core; that run is exactly one render when no
field of the component has the getter name DoRender, and no render when a field
has it. In every other case the call panics and renders nothing. -/
theorem update_fires_no_hooks (comp : Component) (n o : Ref) (w : World) :
    ((reconcile comp (some n) (.ptr (specType comp) (some o)) w).1.trace = w.trace ∨
      ∃ cr, (reconcile comp (some n) (.ptr (specType comp) (some o)) w).1.trace =
        w.trace ++ [Event.DoRender cr]) ∧
    (wellMounted comp w o = true →
      ∃ i cr, (w.specs o).Instance = .ptr (implType comp) (some i) ∧
        (w.impls i).Accessors = .ptr (coreType comp) (some cr) ∧
        reconcile comp (some n) (.ptr (specType comp) (some o)) w =
          (applyProps comp cr n (w.setInstance n (w.specs o).Instance), .ok) ∧
        (declaresGetter comp (ascii "DoRender") = false →
          (reconcile comp (some n) (.ptr (specType comp) (some o)) w).1.trace =
            w.trace ++ [Event.DoRender cr]) ∧
        (declaresGetter comp (ascii "DoRender") = true →
          (reconcile comp (some n) (.ptr (specType comp) (some o)) w).1.trace =
            w.trace)) ∧
    (wellMounted comp w o = false →
      (reconcile comp (some n) (.ptr (specType comp) (some o)) w).2 = .panic ∧
      (reconcile comp (some n) (.ptr (specType comp) (some o)) w).1.trace = w.trace) := by
  rw [reconcile_same_type]
  have hT : wellMounted comp w o = true →
      ∃ i cr, (w.specs o).Instance = .ptr (implType comp) (some i) ∧
        (w.impls i).Accessors = .ptr (coreType comp) (some cr) ∧
        reconcileUpdate comp (some n) (some o) w =
          (applyProps comp cr n (w.setInstance n (w.specs o).Instance), .ok) ∧
        (declaresGetter comp (ascii "DoRender") = false →
          (reconcileUpdate comp (some n) (some o) w).1.trace =
            w.trace ++ [Event.DoRender cr]) ∧
        (declaresGetter comp (ascii "DoRender") = true →
          (reconcileUpdate comp (some n) (some o) w).1.trace = w.trace) := by
    intro h
    obtain ⟨i, cr, h1, h2, he⟩ := reconcileUpdate_wellMounted comp n o w h
    have ht := (applyProps_frame_all comp cr n (w.setInstance n (w.specs o).Instance)).2.2.2.2.1
    refine ⟨i, cr, h1, h2, he, ?_, ?_⟩
    · intro hg
      rw [he]
      show (applyProps comp cr n (w.setInstance n (w.specs o).Instance)).trace = _
      rw [ht, hg]
      rfl
    · intro hg
      rw [he]
      show (applyProps comp cr n (w.setInstance n (w.specs o).Instance)).trace = _
      rw [ht, hg]
      simp [World.setInstance]
  have hF : wellMounted comp w o = false →
      (reconcileUpdate comp (some n) (some o) w).2 = .panic ∧
      (reconcileUpdate comp (some n) (some o) w).1.trace = w.trace := by
    intro h
    rw [reconcileUpdate_not_wellMounted comp n o w h]
    exact ⟨rfl, rfl⟩
  refine ⟨?_, hT, hF⟩
  cases h : wellMounted comp w o with
  | false => exact Or.inl (hF h).2
  | true =>
    obtain ⟨_, cr, _, _, _, ht, ht'⟩ := hT h
    cases hg : declaresGetter comp (ascii "DoRender") with
    | false => exact Or.inr ⟨cr, ht hg⟩
    | true => exact Or.inl (ht' hg)

/-- Witness of the amended C5 on the scenario: the spec at 0 was mounted,
`Counter` has no getter named DoRender, and reconciling `spec{Label:"y"}` at 1
against the spec at 0 returns normally and adds exactly one DoRender. -/
theorem update_fires_no_hooks_witness :
    wellMounted Counter counted 0 = true ∧
    declaresGetter Counter (ascii "DoRender") = false ∧
    (reconcile Counter (some 1) (.ptr (specType Counter) (some 0)) counted).2 = .ok ∧
    (reconcile Counter (some 1) (.ptr (specType Counter) (some 0)) counted).1.trace =
      counted.trace ++ [Event.DoRender 0] ∧
    ∃ i cr, (counted.specs 0).Instance = .ptr (implType Counter) (some i) ∧
      (counted.impls i).Accessors = .ptr (coreType Counter) (some cr) ∧
      reconcile Counter (some 1) (.ptr (specType Counter) (some 0)) counted =
        (applyProps Counter cr 1 (counted.setInstance 1 (counted.specs 0).Instance), .ok) ∧
      (declaresGetter Counter (ascii "DoRender") = false →
        (reconcile Counter (some 1) (.ptr (specType Counter) (some 0)) counted).1.trace =
          counted.trace ++ [Event.DoRender cr]) ∧
      (declaresGetter Counter (ascii "DoRender") = true →
        (reconcile Counter (some 1) (.ptr (specType Counter) (some 0)) counted).1.trace =
          counted.trace) :=
  ⟨by decide, by decide, by decide, by decide,
   (update_fires_no_hooks Counter 1 0 counted).2.1 (by decide)⟩

/-- C6. When the backing fields of the emitted Core have pairwise distinct names
(the emitted struct is a legal Go struct), applyProps stores in the backing field
of every Prop the value of the spec's field of that Prop and leaves the backing
field of every State field unchanged, on every core; and a reconcile call on the
update path leaves every State field of every Core as it was. -/
theorem applyProps_frame (comp : Component) (hnd : (coreSlots comp).Nodup) :
    (∀ (cr spec : Ref) (w : World),
      (∀ f ∈ comp.Props,
        Get f cr (applyProps comp cr spec w) = (w.specs spec).fields (c f.Name)) ∧
      (∀ g ∈ comp.State, ∀ cr',
        Get g cr' (applyProps comp cr spec w) = Get g cr' w)) ∧
    (∀ (n o : Ref) (w : World), ∀ g ∈ comp.State, ∀ cr',
      Get g cr' (reconcile comp (some n) (.ptr (specType comp) (some o)) w).1 = Get g cr' w) := by
  refine ⟨fun cr spec w => ⟨?_, ?_⟩, ?_⟩
  · intro f hf
    have hp : (comp.Props.map slot).Nodup := by
      unfold coreSlots at hnd
      exact (List.nodup_append.1 hnd).1
    show ((callDoRender comp cr (assignProps comp.Props cr spec w)).cores cr).slots (slot f) = _
    rw [(callDoRender_frame comp cr _).2.2.1]
    exact assignProps_prop_slot comp.Props cr spec w hp f hf
  · intro g hg cr'
    exact (applyProps_frame_all comp cr spec w).2.2.2.2.2.2 cr' (slot g)
      (state_slot_not_prop comp hnd g hg)
  · intro n o w g hg cr'
    rw [reconcile_same_type]
    exact (reconcileUpdate_frame comp n o w).2.2.2.2.2 cr' (slot g)
      (state_slot_not_prop comp hnd g hg)

/-- Witness of C6, the Counter scenario: after the mount with Label "x" and the
setter call that stored count = 5, reconciling `spec{Label:"y"}` against the
prior spec leaves count = 5, and applyProps stores Label = "y". -/
theorem applyProps_frame_witness :
    (coreSlots Counter).Nodup ∧
    Get count 0 (reconcile Counter (some 1) (.ptr (specType Counter) (some 0)) counted).1 =
      Get count 0 counted ∧
    Get count 0 counted = .int 5 ∧
    Get Label 0 (applyProps Counter 0 1 counted) = (counted.specs 1).fields (c Label.Name) ∧
    (counted.specs 1).fields (c Label.Name) = .str "y" ∧
    Get Label 0 (reconcile Counter (some 1) (.ptr (specType Counter) (some 0)) counted).1 =
      .str "y" :=
  ⟨by decide,
   (applyProps_frame Counter (by decide)).2 1 0 counted count (by decide) 0,
   by decide,
   ((applyProps_frame Counter (by decide)).1 0 1 counted).1 Label (by decide),
   by decide,
   by decide⟩

/-- C7 (counterexample). The struct `Poller { update int }` has the State field
`update`, whose emitted getter `Update()` on the Core hides the framework
method; its setter stores the value and makes no call of Update. -/
theorem setter_without_update :
    main asciiIsUpper [PollerObject] = [Poller] ∧
    (coreSlots Poller).Nodup ∧
    (⟨ident "update", .basic "int"⟩ : Var) ∈ Poller.State ∧
    Get ⟨ident "update", .basic "int"⟩ 0
      (Set Poller ⟨ident "update", .basic "int"⟩ 0 (.int 1) emptyWorld) = .int 1 ∧
    (Set Poller ⟨ident "update", .basic "int"⟩ 0 (.int 1) emptyWorld).trace = [] := by
  decide

/-- C7 (amended). For a State field x of a component whose backing fields have
pairwise distinct names, the emitted setter `Set<X>(v)` leaves the backing field
of x equal to v, whatever it held before, leaves the backing field of every
other Prop and State field of that Core unchanged, and touches no other Core
and no spec. With no equality check it makes exactly one call of Update when no
field of the component has the getter name Update; when a field has that getter
name, the setter makes no call of Update. -/
theorem setter_effect (comp : Component) (x : Var) (cr : Ref) (v : Value) (w : World)
    (hx : x ∈ comp.State) (hnd : (coreSlots comp).Nodup) :
    Get x cr (Set comp x cr v w) = v ∧
    (∀ g ∈ comp.Props ++ comp.State, g ≠ x →
      Get g cr (Set comp x cr v w) = Get g cr w) ∧
    (∀ cr', cr' ≠ cr → (Set comp x cr v w).cores cr' = w.cores cr') ∧
    (Set comp x cr v w).specs = w.specs ∧
    (Set comp x cr v w).impls = w.impls ∧
    (declaresGetter comp (ascii "Update") = false →
      (Set comp x cr v w).trace = w.trace ++ [Event.Update cr]) ∧
    (declaresGetter comp (ascii "Update") = true →
      (Set comp x cr v w).trace = w.trace) := by
  obtain ⟨u1, u2, u3, _, _, u6⟩ := callUpdate_frame comp cr (w.setSlot cr (slot x) v)
  refine ⟨?_, ?_, ?_, ?_, ?_, ?_, ?_⟩
  · show ((callUpdate comp cr (w.setSlot cr (slot x) v)).cores cr).slots (slot x) = v
    rw [u3]; simp [World.setSlot]
  · intro g hg hne
    have hs : slot g ≠ slot x :=
      slot_ne_of_nodup comp hnd x g (List.mem_append_right _ hx) hg hne
    show ((callUpdate comp cr (w.setSlot cr (slot x) v)).cores cr).slots (slot g) = _
    rw [u3]; simp [Get, World.setSlot, setAt_other _ _ _ _ hs]
  · intro cr' e
    show (callUpdate comp cr (w.setSlot cr (slot x) v)).cores cr' = _
    rw [u3]; simp [World.setSlot, setAt_other _ _ _ _ e]
  · show (callUpdate comp cr (w.setSlot cr (slot x) v)).specs = _
    rw [u1]; rfl
  · show (callUpdate comp cr (w.setSlot cr (slot x) v)).impls = _
    rw [u2]; rfl
  · intro hg
    show (callUpdate comp cr (w.setSlot cr (slot x) v)).trace = _
    rw [u6, hg]; rfl
  · intro hg
    show (callUpdate comp cr (w.setSlot cr (slot x) v)).trace = _
    rw [u6, hg]; simp [World.setSlot]

/-- Witness of the amended C7, the Counter scenario: `Counter` has no getter
named Update, and the setter of count called with 5 on the mounted core stores
5, leaves Label at "x" and requests one render. -/
theorem setter_effect_witness :
    count ∈ Counter.State ∧ (coreSlots Counter).Nodup ∧
    declaresGetter Counter (ascii "Update") = false ∧
    Get count 0 (Set Counter count 0 (.int 5) mounted) = .int 5 ∧
    Get Label 0 (Set Counter count 0 (.int 5) mounted) = Get Label 0 mounted ∧
    Get Label 0 mounted = .str "x" ∧
    (Set Counter count 0 (.int 5) mounted).trace = mounted.trace ++ [Event.Update 0] :=
  ⟨by decide, by decide, by decide,
   (setter_effect Counter count 0 (.int 5) mounted (by decide) (by decide)).1,
   (setter_effect Counter count 0 (.int 5) mounted (by decide) (by decide)).2.1
     Label (by decide) (by decide),
   by decide,
   (setter_effect Counter count 0 (.int 5) mounted (by decide) (by decide)).2.2.2.2.2.1
     (by decide)⟩

theorem wellMounted_iff (comp : Component) (w : World) (m : Ref) :
    wellMounted comp w m = true ↔
      ∃ i cr, (w.specs m).Instance = .ptr (implType comp) (some i) ∧
        (w.impls i).Accessors = .ptr (coreType comp) (some cr) := by
  constructor
  · intro h
    unfold wellMounted at h
    split at h
    · rename_i i hi
      split at h
      · rename_i cr hcr
        exact ⟨i, cr, (typeAssert_eq_some _ _ _).1 hi, (typeAssert_eq_some _ _ _).1 hcr⟩
      · simp at h
    · simp at h
  · rintro ⟨i, cr, h1, h2⟩
    simp [wellMounted, h1, h2, typeAssert_self]

theorem reconcileMount_wellMounted (comp : Component) (n : Ref) (w : World) :
    (reconcileMount comp (some n) w).2 = .ok ∧
    wellMounted comp (reconcileMount comp (some n) w).1 n = true ∧
    (∀ m, wellMounted comp w m = true →
      wellMounted comp (reconcileMount comp (some n) w).1 m = true) := by
  obtain ⟨w5, he, _, h2, h3, _, _, _, _⟩ := reconcileMount_shape comp n w
  obtain ⟨a1, a2, _⟩ := applyProps_frame_all comp w.nextCore n w5
  have hs : (reconcileMount comp (some n) w).1.specs =
      setAt w.specs n ⟨.ptr (implType comp) (some w.nextImpl), (w.specs n).fields⟩ := by
    rw [he]
    show (applyProps comp w.nextCore n w5).specs = _
    rw [a1, h2]
  have hi : (reconcileMount comp (some n) w).1.impls =
      setAt w.impls w.nextImpl ⟨.ptr (coreType comp) (some w.nextCore)⟩ := by
    rw [he]
    show (applyProps comp w.nextCore n w5).impls = _
    rw [a2, h3]
  refine ⟨by rw [he], ?_, ?_⟩
  · rw [wellMounted_iff]
    exact ⟨w.nextImpl, w.nextCore, by rw [hs]; simp, by rw [hi]; simp⟩
  · intro m hm
    by_cases e : m = n
    · subst e
      rw [wellMounted_iff]
      exact ⟨w.nextImpl, w.nextCore, by rw [hs]; simp, by rw [hi]; simp⟩
    · obtain ⟨j, cr, h1, h2'⟩ := (wellMounted_iff comp w m).1 hm
      rw [wellMounted_iff]
      by_cases ej : j = w.nextImpl
      · refine ⟨j, w.nextCore, ?_, ?_⟩
        · rw [hs, setAt_other _ _ _ _ e]; exact h1
        · rw [hi, ej]; simp
      · refine ⟨j, cr, ?_, ?_⟩
        · rw [hs, setAt_other _ _ _ _ e]; exact h1
        · rw [hi, setAt_other _ _ _ _ ej]; exact h2'

theorem reconcileUpdate_keeps_wellMounted (comp : Component) (n o : Ref) (w : World)
    (ho : wellMounted comp w o = true) :
    (reconcileUpdate comp (some n) (some o) w).2 = .ok ∧
    wellMounted comp (reconcileUpdate comp (some n) (some o) w).1 n = true ∧
    (∀ m, wellMounted comp w m = true →
      wellMounted comp (reconcileUpdate comp (some n) (some o) w).1 m = true) := by
  obtain ⟨hs, hi, _⟩ := reconcileUpdate_frame comp n o w
  obtain ⟨i, cr, h1, h2, he⟩ := reconcileUpdate_wellMounted comp n o w ho
  have hn : wellMounted comp (reconcileUpdate comp (some n) (some o) w).1 n = true := by
    rw [wellMounted_iff]
    exact ⟨i, cr, by rw [hs]; simpa using h1, by rw [hi]; exact h2⟩
  refine ⟨by rw [he], hn, ?_⟩
  intro m hm
  by_cases e : m = n
  · subst e; exact hn
  · rw [wellMounted_congr comp w _ m (by rw [hs, setAt_other _ _ _ _ e]) hi]
    exact hm

theorem reconcile_ok_wellMounted (comp : Component) (newSpec : Option Ref) (oldSpec : Iface)
    (w : World) (hok : (reconcile comp newSpec oldSpec w).2 = .ok) :
    ∃ n, newSpec = some n ∧ wellMounted comp (reconcile comp newSpec oldSpec w).1 n = true := by
  cases hta : typeAssert (specType comp) oldSpec with
  | none =>
    have hr : reconcile comp newSpec oldSpec w = reconcileMount comp newSpec w := by
      simp [reconcile, hta]
    rw [hr] at hok ⊢
    cases newSpec with
    | none => simp [reconcileMount] at hok
    | some n => exact ⟨n, rfl, (reconcileMount_wellMounted comp n w).2.1⟩
  | some old =>
    have hr : reconcile comp newSpec oldSpec w = reconcileUpdate comp newSpec old w := by
      simp [reconcile, hta]
    rw [hr] at hok ⊢
    cases newSpec with
    | none => cases old <;> simp [reconcileUpdate] at hok
    | some n =>
      cases old with
      | none => simp [reconcileUpdate] at hok
      | some o =>
        refine ⟨n, rfl, ?_⟩
        cases hwm : wellMounted comp w o with
        | true => exact (reconcileUpdate_keeps_wellMounted comp n o w hwm).2.1
        | false =>
          rw [reconcileUpdate_not_wellMounted comp n o w hwm] at hok
          simp at hok

theorem reconcile_step (comp : Component) (earlier : List Ref) (call : Call) (w : World)
    (hinv : ∀ m ∈ earlier, wellMounted comp w m = true)
    (hadm : admissible comp earlier call = true) :
    (reconcile comp call.newSpec call.oldSpec w).2 = .ok ∧
    (∀ m ∈ newSpecs [call] ++ earlier,
      wellMounted comp (reconcile comp call.newSpec call.oldSpec w).1 m = true) := by
  obtain ⟨newSpec, oldSpec⟩ := call
  unfold admissible at hadm
  simp only [Bool.and_eq_true] at hadm
  obtain ⟨hsome, hold⟩ := hadm
  cases newSpec with
  | none => simp at hsome
  | some n =>
    have key : ∀ r : World × Outcome, r.2 = .ok ∧ wellMounted comp r.1 n = true ∧
        (∀ m, wellMounted comp w m = true → wellMounted comp r.1 m = true) →
        r.2 = .ok ∧ ∀ m ∈ newSpecs [(⟨some n, oldSpec⟩ : Call)] ++ earlier,
          wellMounted comp r.1 m = true := by
      rintro r ⟨h1, h2, h3⟩
      refine ⟨h1, ?_⟩
      intro m hm
      simp only [newSpecs, List.cons_append, List.nil_append, List.mem_cons] at hm
      rcases hm with e | hm
      · rw [e]; exact h2
      · exact h3 m (hinv m hm)
    apply key
    cases oldSpec with
    | nil =>
      rw [reconcile_other_type comp (some n) .nil w (by intro p hp; cases hp)]
      exact reconcileMount_wellMounted comp n w
    | ptr t p =>
      by_cases ht : t = specType comp
      · subst ht
        simp only [if_true] at hold
        cases p with
        | none => simp at hold
        | some o =>
          simp only [decide_eq_true_eq] at hold
          rw [reconcile_same_type]
          exact reconcileUpdate_keeps_wellMounted comp n o w (hinv o hold)
      · rw [reconcile_other_type comp (some n) (.ptr t p) w
          (by intro q hq; injection hq with h1 _; exact ht h1)]
        exact reconcileMount_wellMounted comp n w

theorem runCalls_chain (comp : Component) (calls : List Call) :
    ∀ (earlier : List Ref) (w : World),
      (∀ m ∈ earlier, wellMounted comp w m = true) →
      chain comp earlier calls = true →
      (runCalls comp calls w).2 = .ok ∧
      (∀ m ∈ newSpecs calls ++ earlier, wellMounted comp (runCalls comp calls w).1 m = true) := by
  induction calls with
  | nil =>
    intro earlier w hinv _
    exact ⟨rfl, by simpa [newSpecs, runCalls] using hinv⟩
  | cons call rest ih =>
    intro earlier w hinv hch
    simp only [chain, Bool.and_eq_true] at hch
    obtain ⟨hadm, hrest⟩ := hch
    obtain ⟨hok, hinv'⟩ := reconcile_step comp earlier call w hinv hadm
    have hrun : runCalls comp (call :: rest) w =
        runCalls comp rest (reconcile comp call.newSpec call.oldSpec w).1 := by
      generalize hr : reconcile comp call.newSpec call.oldSpec w = r at hok
      obtain ⟨w', out⟩ := r
      simp only at hok
      subst hok
      simp [runCalls, hr]
    rw [hrun]
    obtain ⟨h1, h2⟩ := ih _ _ hinv' hrest
    refine ⟨h1, ?_⟩
    intro m hm
    apply h2
    have hsplit : newSpecs (call :: rest) = newSpecs [call] ++ newSpecs rest := by
      cases hn : call.newSpec <;> simp [newSpecs, hn]
    rw [hsplit] at hm
    simp only [List.mem_append] at hm ⊢
    tauto

theorem chain_take (comp : Component) (calls : List Call) :
    ∀ (earlier : List Ref) (k : Nat), chain comp earlier calls = true →
      chain comp earlier (calls.take k) = true := by
  induction calls with
  | nil => intro earlier k h; simpa using h
  | cons call rest ih =>
    intro earlier k h
    cases k with
    | zero => rfl
    | succ k =>
      simp only [chain, Bool.and_eq_true, List.take_succ_cons] at h ⊢
      exact ⟨h.1, ih _ k h.2⟩

/-- C10. Every call of the emitted reconcile function that returns normally
leaves newSpec.Instance a `<Name>Impl` whose Accessors field is a `<name>Core`.
Hence, from any world, in a sequence of calls in which every newSpec is a spec
and every oldSpec is absent, of another type, or the newSpec of an earlier call
of the sequence, no call panics: after each number k of calls the run has
returned normally, and every spec that was a newSpec so far still carries such a
handle, so both type assertions of the update path succeed on it. -/
theorem reconcile_chain_safe (comp : Component) :
    (∀ (newSpec : Option Ref) (oldSpec : Iface) (w : World),
      (reconcile comp newSpec oldSpec w).2 = .ok →
      ∃ n, newSpec = some n ∧
        wellMounted comp (reconcile comp newSpec oldSpec w).1 n = true) ∧
    (∀ (calls : List Call) (w : World), chain comp [] calls = true →
      ∀ k : Nat,
        (runCalls comp (calls.take k) w).2 = .ok ∧
        (∀ m ∈ newSpecs (calls.take k),
          wellMounted comp (runCalls comp (calls.take k) w).1 m = true)) := by
  refine ⟨reconcile_ok_wellMounted comp, ?_⟩
  intro calls w hch k
  obtain ⟨h1, h2⟩ := runCalls_chain comp (calls.take k) [] w (by simp)
    (chain_take comp calls [] k hch)
  exact ⟨h1, fun m hm => h2 m (by simpa using hm)⟩

/-- Witness of C10: the sample chain of four calls on the empty world meets the
chain condition, runs without panic, and leaves the spec at 1 with a handle on
which both assertions succeed. -/
theorem reconcile_chain_safe_witness :
    chain Counter [] sampleChain = true ∧
    (runCalls Counter (sampleChain.take 4) emptyWorld).2 = .ok ∧
    wellMounted Counter (runCalls Counter (sampleChain.take 4) emptyWorld).1 1 = true :=
  ⟨by decide,
   ((reconcile_chain_safe Counter).2 sampleChain emptyWorld (by decide) 4).1,
   ((reconcile_chain_safe Counter).2 sampleChain emptyWorld (by decide) 4).2 1 (by decide)⟩

end Gencomponent
